import Mathlib

set_option maxHeartbeats 1000000

/-!
Shallow embedding of the dalapy record store (src/src/dalapy) and the
example-project data API (src/example_project), together with proofs of the
specification's claims about them.

The embedding follows the Python sources:
  * `spec.py`   — `UniqueRule`, `RepoSpec`, `_norm`, `validate`
  * `repo.py`   — `Repo.create/upsert/update/delete/get/get_by/exists_by`
  * `data_api.py` — `DataAPI.create_system`
Tables are TinyDB tables, modelled as lists of records in document order;
records are ordered field/value mappings as produced by the pydantic dump.
-/

namespace Dalapy

/-- Python runtime values that occur in stored records and entity fields:
`None`, `int`, `str`, and `list` (used for `product_ids`).  Floats and booleans
never reach a uniqueness comparison in the sources and are not modelled. -/
inductive Value where
  | VNull : Value
  | VInt : Int → Value
  | VStr : String → Value
  | VList : List Value → Value

mutual

/-- Python `==` on the modelled values: `None == None` is `True`, same-type
values compare structurally, and cross-type comparisons (e.g. `1 == "1"`)
are `False`. -/
def pyEq : Value → Value → Bool
  | .VNull, .VNull => true
  | .VInt a, .VInt b => a == b
  | .VStr a, .VStr b => a == b
  | .VList a, .VList b => pyEqList a b
  | _, _ => false

def pyEqList : List Value → List Value → Bool
  | [], [] => true
  | a :: as', b :: bs' => pyEq a b && pyEqList as' bs'
  | _, _ => false

end

/-- Python `str.lower()`; the sources only lower-case ASCII field values. -/
def pyLower (s : String) : String := ⟨s.data.map Char.toLower⟩

mutual

/-- Python `str(value)` (with `repr` for list elements, as Python prints
lists).  String escaping inside `repr` is not modelled: no value that reaches
a normalization in the sources contains quote characters. -/
def pyStr : Value → String
  | .VNull => "None"
  | .VInt i => toString i
  | .VStr s => s
  | .VList xs => "[" ++ pyReprList xs ++ "]"

def pyRepr : Value → String
  | .VNull => "None"
  | .VInt i => toString i
  | .VStr s => "'" ++ s ++ "'"
  | .VList xs => "[" ++ pyReprList xs ++ "]"

def pyReprList : List Value → String
  | [] => ""
  | [x] => pyRepr x
  | x :: xs => pyRepr x ++ ", " ++ pyReprList xs

end

/-- A stored document: an ordered field/value mapping (a Python dict as
serialized by `adapter.dump_python`). -/
abbrev Record := List (String × Value)

/-- First binding of a field in a record (Python dict lookup). -/
def lookupField : Record → String → Option Value
  | [], _ => none
  | (k, v) :: rest, f => if k = f then some v else lookupField rest f

/-- Python `row.get(field)`: `None` when the field is absent. -/
def rget (r : Record) (f : String) : Value := (lookupField r f).getD .VNull

/-- A typed entity (`HasId`): an integer `id` plus the remaining fields in
declaration order.  `dump` below is `adapter.dump_python`. -/
structure Obj where
  id : Int
  attrs : Record

/-- `adapter.dump_python(obj)`: the full record, `id` first. -/
def dump (o : Obj) : Record := ("id", .VInt o.id) :: o.attrs

/-- `getattr(obj, field, None)` on the entity, read through its dump. -/
def oget (o : Obj) (f : String) : Value := rget (dump o) f

/-- `spec.py` `UniqueRule(field, nocase, allow_none)`. -/
structure UniqueRule where
  field : String
  nocase : Bool := false
  allow_none : Bool := true
deriving DecidableEq

/-- `spec.py` `RepoSpec`: table name, uniqueness rules in declaration order,
and the optional custom validator `(rows, candidate, exclude_id) → error?`
(the `Env` argument carries no data the validator logic reads and is not
modelled). -/
structure RepoSpec where
  table_name : String := ""
  unique : List UniqueRule := []
  validator : Option (List Record → Obj → Option Int → Option String) := none

/-- `spec.py` `_norm`: `None` stays `None`; under `nocase` the value becomes
`str(value).lower()`; otherwise it is returned unchanged. -/
def norm (rule : UniqueRule) (v : Value) : Value :=
  match v with
  | .VNull => .VNull
  | _ => if rule.nocase then .VStr (pyLower (pyStr v)) else v

/-- True when `v` is Python `None`. -/
def isVNull : Value → Bool
  | .VNull => true
  | _ => false

/-- The row-exclusion test in `validate`:
`exclude_id is not None and row.get('id') == exclude_id`. -/
def excluded (exclude : Option Int) (row : Record) : Bool :=
  match exclude with
  | none => false
  | some i => pyEq (rget row "id") (.VInt i)

/-- The inner loop of `validate` for one rule: some non-excluded row's
normalized field value equals the candidate's normalized value. -/
def ruleViolated (tbl : List Record) (rule : UniqueRule) (v : Value)
    (exclude : Option Int) : Bool :=
  tbl.any (fun row => !excluded exclude row && pyEq (norm rule (rget row rule.field)) v)

/-- The unique-rule loop of `validate`: rules in declaration order, first
violation returned; a rule whose normalized candidate value is `None` is
skipped when it allows `None`. -/
def validateRules (tbl : List Record) (rules : List UniqueRule) (o : Obj)
    (exclude : Option Int) : Option String :=
  match rules with
  | [] => none
  | rule :: rest =>
    let v := norm rule (oget o rule.field)
    if isVNull v && rule.allow_none then validateRules tbl rest o exclude
    else if ruleViolated tbl rule v exclude then
      some ("unique_violation:" ++ rule.field)
    else validateRules tbl rest o exclude

/-- `spec.py` `validate`: unique rules first, then the custom validator.
Python tests the validator's result with `if err:`, a truthiness test, so an
empty-string return is treated the same as `None`. -/
def validate (tbl : List Record) (spec : RepoSpec) (o : Obj)
    (exclude : Option Int) : Option String :=
  match validateRules tbl spec.unique o exclude with
  | some e => some e
  | none =>
    match spec.validator with
    | none => none
    | some f =>
      match f tbl o exclude with
      | some e => if e = "" then none else some e
      | none => none

/-- TinyDB query `Query().id == i`: a document with no `id` field never
matches (field access raises inside the query and counts as no match). -/
def idMatches (i : Int) (row : Record) : Bool :=
  match lookupField row "id" with
  | some v => pyEq v (.VInt i)
  | none => false

/-- TinyDB query `where(field) == value`. -/
def fieldMatches (f : String) (v : Value) (row : Record) : Bool :=
  match lookupField row f with
  | some w => pyEq w v
  | none => false

/-- The `where(field).test(lambda v: isinstance(v, str) and v.lower() ==
value.lower())` query used by the `nocase` lookups. -/
def nocaseMatches (f : String) (s : String) (row : Record) : Bool :=
  match lookupField row f with
  | some (.VStr t) => pyLower t == pyLower s
  | _ => false

/-- TinyDB `doc.update(fields)` on a stored document: existing keys keep
their position and take the new value; keys new to the document are appended
in the update's order. -/
def mergeRec (r d : Record) : Record :=
  (r.map (fun kv =>
    match lookupField d kv.1 with
    | some v => (kv.1, v)
    | none => kv))
  ++ d.filter (fun kv => (lookupField r kv.1).isNone)

/-- TinyDB `table.update(fields, cond)`: merge into every matching document. -/
def tableUpdate (tbl : List Record) (d : Record) (cond : Record → Bool) :
    List Record :=
  tbl.map (fun row => if cond row then mergeRec row d else row)

/-- TinyDB `table.upsert(doc, cond)`: update matching documents, or append
the document when none match. -/
def tableUpsert (tbl : List Record) (d : Record) (cond : Record → Bool) :
    List Record :=
  if tbl.any cond then tableUpdate tbl d cond else tbl ++ [d]

/-- TinyDB `table.remove(cond)`: drop every matching document. -/
def tableRemove (tbl : List Record) (cond : Record → Bool) : List Record :=
  tbl.filter (fun row => !cond row)

/-- `repo.py` `Repo.create`: fail `id_exists` on an id collision (checked by
`d.get('id') == obj.id` over every document), then validate with no excluded
id, then insert the dump.  The result pairs the operation's outcome with the
table state after the operation. -/
def Repo.create (spec : RepoSpec) (o : Obj) (tbl : List Record) :
    Except String Obj × List Record :=
  if tbl.any (fun d => pyEq (rget d "id") (.VInt o.id)) then
    (.error "id_exists", tbl)
  else
    match validate tbl spec o none with
    | some e => (.error e, tbl)
    | none => (.ok o, tbl ++ [dump o])

/-- `repo.py` `Repo.upsert`: validate excluding the object's own id, then
TinyDB-upsert the dump at `Query().id == obj.id`. -/
def Repo.upsert (spec : RepoSpec) (o : Obj) (tbl : List Record) :
    Except String Obj × List Record :=
  match validate tbl spec o (some o.id) with
  | some e => (.error e, tbl)
  | none => (.ok o, tableUpsert tbl (dump o) (idMatches o.id))

/-- `repo.py` `Repo.update`: fail `not_found` when no document matches the
id, then validate excluding the id, then update every matching document. -/
def Repo.update (spec : RepoSpec) (o : Obj) (tbl : List Record) :
    Except String Obj × List Record :=
  if !tbl.any (idMatches o.id) then (.error "not_found", tbl)
  else
    match validate tbl spec o (some o.id) with
    | some e => (.error e, tbl)
    | none => (.ok o, tableUpdate tbl (dump o) (idMatches o.id))

/-- `repo.py` `Repo.delete`: remove every document matching the id; when the
removal list is empty, fail `not_found` (the removal has already run, but it
removed nothing). -/
def Repo.delete (entityId : Int) (tbl : List Record) :
    Except String Int × List Record :=
  let removed := tbl.filter (idMatches entityId)
  let tbl' := tableRemove tbl (idMatches entityId)
  if removed.isEmpty then (.error "not_found", tbl')
  else (.ok entityId, tbl')

/-- `repo.py` `Repo.get`: first document matching the id, or `not_found`.
The adapter re-validation returns the typed object for a dumped record and is
modelled as the identity on the raw document. -/
def Repo.get (entityId : Int) (tbl : List Record) : Except String Record :=
  match tbl.find? (idMatches entityId) with
  | none => .error "not_found"
  | some doc => .ok doc

/-- `repo.py` `Repo.get_by`: the case-folded string query is used only when
`nocase` is set and the requested value is a string; otherwise an exact
equality query. -/
def Repo.getBy (f : String) (v : Value) (nocase : Bool) (tbl : List Record) :
    Except String Record :=
  let doc :=
    match nocase, v with
    | true, .VStr s => tbl.find? (nocaseMatches f s)
    | _, _ => tbl.find? (fieldMatches f v)
  match doc with
  | none => .error "not_found"
  | some d => .ok d

/-- `repo.py` `Repo.exists_by`: boolean presence check with the same query
dispatch as `get_by`. -/
def Repo.existsBy (f : String) (v : Value) (nocase : Bool)
    (tbl : List Record) : Bool :=
  match nocase, v with
  | true, .VStr s => tbl.any (nocaseMatches f s)
  | _, _ => tbl.any (fieldMatches f v)

/-- `models.py` `System`: id, name, ordered product-id references. -/
structure SystemObj where
  id : Int
  name : String
  product_ids : List Int

/-- The `System` entity as a generic repo object. -/
def systemObj (s : SystemObj) : Obj :=
  ⟨s.id, [("name", .VStr s.name),
          ("product_ids", .VList (s.product_ids.map Value.VInt))]⟩

/-- `repositories.py` `SYSTEM_SPEC`: case-insensitive unique `name`. -/
def SYSTEM_SPEC : RepoSpec :=
  { table_name := "systems", unique := [⟨"name", true, true⟩] }

/-- The product-reference loop of `data_api.py` `DataAPI.create_system`:
ids checked in list order via `exists_by("id", pid)`, aborting at the first
missing one. -/
def checkProductIds (products : List Record) : List Int → Except String Unit
  | [] => .ok ()
  | pid :: rest =>
    if Repo.existsBy "id" (.VInt pid) false products then
      checkProductIds products rest
    else .error "missing_product"

/-- `data_api.py` `DataAPI.create_system`: verify every referenced product id
exists, then create the system; the systems table is returned unchanged on
the failure path. -/
def DataAPI.createSystem (products systems : List Record) (s : SystemObj) :
    Except String SystemObj × List Record :=
  match checkProductIds products s.product_ids with
  | .error e => (.error e, systems)
  | .ok _ =>
    match Repo.create SYSTEM_SPEC (systemObj s) systems with
    | (.ok _, systems') => (.ok s, systems')
    | (.error e, systems') => (.error e, systems')

/-- A write operation of the Repo, for reasoning about operation sequences. -/
inductive Op where
  | create (o : Obj)
  | update (o : Obj)
  | upsert (o : Obj)
  | delete (i : Int)

/-- The table state after one Repo operation (unchanged when it fails). -/
def applyOp (spec : RepoSpec) (tbl : List Record) : Op → List Record
  | .create o => (Repo.create spec o tbl).2
  | .update o => (Repo.update spec o tbl).2
  | .upsert o => (Repo.upsert spec o tbl).2
  | .delete i => (Repo.delete i tbl).2

/-- The table state after a sequence of Repo operations from the empty
collection. -/
def runOps (spec : RepoSpec) (ops : List Op) : List Record :=
  ops.foldl (applyOp spec) []

/-- The normalized value a uniqueness rule sees for a stored row. -/
def normField (rule : UniqueRule) (row : Record) : Value :=
  norm rule (rget row rule.field)

/-- The uniqueness invariant of one rule over a collection: two rows whose
ids differ never carry normalized-equal field values, except that both may
be null when the rule allows null. -/
def UniqueInv (rule : UniqueRule) (tbl : List Record) : Prop :=
  ∀ r1 ∈ tbl, ∀ r2 ∈ tbl,
    pyEq (rget r1 "id") (rget r2 "id") = false →
    pyEq (normField rule r1) (normField rule r2) = true →
    isVNull (normField rule r1) = true ∧ rule.allow_none = true

/-- What is observable on disk at one instant: the contents at the real
backing path and at the temporary sibling path. -/
structure FileState where
  real : Option String
  temp : Option String
deriving DecidableEq

/-- Modelled from the spec: the persistence layer's write procedure —
"Write to a temporary sibling file, flush and force to stable storage, then
atomically rename over the target path."  The byte-level write is performed
by the storage backend dependency (TinyDB's storage), which is not among the
sources under `src/`; this models §4.1 of the spec as the list of observable
file states, one per byte written to the temporary file, then the fsync,
then the atomic rename. -/
def writeStates (old : Option String) (content : String) : List FileState :=
  ((List.range (content.length + 1)).map (fun k =>
    FileState.mk old (some (String.mk (content.data.take k)))))
  ++ [FileState.mk old (some content),
      FileState.mk (some content) none]

/-- Sample user `User(id=1, name="Alice")`. -/
def alice : Obj := ⟨1, [("name", .VStr "Alice")]⟩

/-- Sample user `User(id=2, name="ALICE")`. -/
def bigAlice : Obj := ⟨2, [("name", .VStr "ALICE")]⟩

/-- Sample user `User(id=3, name="Bob")`. -/
def bob : Obj := ⟨3, [("name", .VStr "Bob")]⟩

/-- `repositories.py` `USER_SPEC`: case-insensitive unique `name`. -/
def USER_SPEC : RepoSpec :=
  { table_name := "users", unique := [⟨"name", true, true⟩] }

/-- Sample stored product record `Product(id=1, sku="ABC")`. -/
def prodABC : Record := [("id", .VInt 1), ("sku", .VStr "ABC")]

/-- Sample stored product record `Product(id=2, sku="xyz")`. -/
def prodXYZ : Record := [("id", .VInt 2), ("sku", .VStr "xyz")]

/-- A custom validator returning the empty string, a non-null value that
Python's `if err:` treats as falsy. -/
def emptyStrValidator : List Record → Obj → Option Int → Option String :=
  fun _ _ _ => some ""

/-- A spec whose custom validator always returns the empty string. -/
def emptyStrSpec : RepoSpec :=
  { table_name := "t", validator := some emptyStrValidator }

/-- A custom validator that rejects whenever the collection is non-empty. -/
def nonemptyValidator : List Record → Obj → Option Int → Option String :=
  fun tbl _ _ => if tbl.isEmpty then none else some "custom_blocked"

/-- A spec carrying `nonemptyValidator` and no unique rules. -/
def nonemptySpec : RepoSpec :=
  { table_name := "t", validator := some nonemptyValidator }

/-- One unique rule "passes" for a candidate: it is skipped (normalized null
and null allowed) or no non-excluded row holds the candidate's normalized
value. -/
def rulePasses (tbl : List Record) (rule : UniqueRule) (o : Obj)
    (ex : Option Int) : Bool :=
  (isVNull (norm rule (oget o rule.field)) && rule.allow_none) ||
  !ruleViolated tbl rule (norm rule (oget o rule.field)) ex

mutual

theorem pyEq_refl : ∀ v : Value, pyEq v v = true
  | .VNull => rfl
  | .VInt _ => by simp [pyEq]
  | .VStr _ => by simp [pyEq]
  | .VList xs => by simp [pyEq, pyEqList_refl xs]

theorem pyEqList_refl : ∀ xs : List Value, pyEqList xs xs = true
  | [] => rfl
  | x :: xs => by simp [pyEqList, pyEq_refl x, pyEqList_refl xs]

end

mutual

theorem pyEq_symm : ∀ a b : Value, pyEq a b = pyEq b a
  | .VNull, .VNull => rfl
  | .VNull, .VInt _ => rfl
  | .VNull, .VStr _ => rfl
  | .VNull, .VList _ => rfl
  | .VInt _, .VNull => rfl
  | .VInt a, .VInt b => by simp [pyEq, Bool.beq_comm]
  | .VInt _, .VStr _ => rfl
  | .VInt _, .VList _ => rfl
  | .VStr _, .VNull => rfl
  | .VStr _, .VInt _ => rfl
  | .VStr a, .VStr b => by simp [pyEq, Bool.beq_comm]
  | .VStr _, .VList _ => rfl
  | .VList _, .VNull => rfl
  | .VList _, .VInt _ => rfl
  | .VList _, .VStr _ => rfl
  | .VList a, .VList b => by simp [pyEq, pyEqList_symm a b]

theorem pyEqList_symm : ∀ a b : List Value, pyEqList a b = pyEqList b a
  | [], [] => rfl
  | [], _ :: _ => rfl
  | _ :: _, [] => rfl
  | a :: as', b :: bs' => by
    simp [pyEqList, pyEq_symm a b, pyEqList_symm as' bs']

end

theorem pyEq_VNull_iff (v : Value) : pyEq v .VNull = true ↔ v = .VNull := by
  cases v <;> simp [pyEq]

theorem pyEq_VInt_iff (v : Value) (i : Int) :
    pyEq v (.VInt i) = true ↔ v = .VInt i := by
  cases v <;> simp [pyEq]

theorem lookupField_append_some {a : Record} {f : String} {v : Value}
    (b : Record) (h : lookupField a f = some v) :
    lookupField (a ++ b) f = some v := by
  induction a with
  | nil => simp [lookupField] at h
  | cons kv rest ih =>
    by_cases hk : kv.1 = f
    · simpa [lookupField, hk] using h
    · simp only [lookupField, hk, if_neg] at h ⊢
      exact ih h

theorem lookupField_append_none {a : Record} {f : String}
    (b : Record) (h : lookupField a f = none) :
    lookupField (a ++ b) f = lookupField b f := by
  induction a with
  | nil => simp [lookupField]
  | cons kv rest ih =>
    by_cases hk : kv.1 = f
    · simp [lookupField, hk] at h
    · simp only [lookupField, hk, if_neg] at h ⊢
      exact ih h

theorem lookupField_map_merge (r d : Record) (f : String) :
    lookupField (r.map (fun kv =>
      match lookupField d kv.1 with
      | some v => (kv.1, v)
      | none => kv)) f =
    (lookupField r f).map (fun w => (lookupField d f).getD w) := by
  induction r with
  | nil => simp [lookupField]
  | cons kv rest ih =>
    by_cases hk : kv.1 = f
    · subst hk
      cases hd : lookupField d kv.1 <;>
        simp [lookupField, hd]
    · cases hd : lookupField d kv.1 <;>
        simp [lookupField, hd, hk, ih]

theorem lookupField_filter_absent (r d : Record) (f : String)
    (h : lookupField r f = none) :
    lookupField (d.filter (fun kv => (lookupField r kv.1).isNone)) f =
    lookupField d f := by
  induction d with
  | nil => simp [lookupField]
  | cons kv rest ih =>
    by_cases hk : kv.1 = f
    · subst hk
      simp [List.filter, h, lookupField]
    · cases hkeep : (lookupField r kv.1).isNone <;>
        simp [List.filter, hkeep, lookupField, hk, ih]

theorem lookupField_mergeRec (r d : Record) (f : String) :
    lookupField (mergeRec r d) f =
      match lookupField r f with
      | some w => some ((lookupField d f).getD w)
      | none => lookupField d f := by
  unfold mergeRec
  cases hr : lookupField r f with
  | some w =>
    have := lookupField_map_merge r d f
    rw [hr] at this
    simpa using lookupField_append_some _ (by simpa using this)
  | none =>
    have hmap := lookupField_map_merge r d f
    rw [hr] at hmap
    rw [lookupField_append_none _ (by simpa using hmap)]
    exact lookupField_filter_absent r d f hr

theorem lookupField_mergeRec_of_some {d : Record} {f : String} {v : Value}
    (r : Record) (h : lookupField d f = some v) :
    lookupField (mergeRec r d) f = some v := by
  rw [lookupField_mergeRec]
  cases hr : lookupField r f <;> simp [h]

theorem lookupField_mergeRec_of_none {d : Record} {f : String}
    (r : Record) (h : lookupField d f = none) :
    lookupField (mergeRec r d) f = lookupField r f := by
  rw [lookupField_mergeRec]
  cases hr : lookupField r f <;> simp [h]

theorem lookupField_dump_id (o : Obj) :
    lookupField (dump o) "id" = some (.VInt o.id) := by
  simp [dump, lookupField]

theorem rget_dump_id (o : Obj) : rget (dump o) "id" = .VInt o.id := by
  simp [rget, lookupField_dump_id]

theorem excluded_some_eq_idMatches (i : Int) (row : Record) :
    excluded (some i) row = idMatches i row := by
  cases h : lookupField row "id" <;>
    simp [excluded, idMatches, rget, h, pyEq]

theorem ruleViolated_false_on {tbl : List Record} {rule : UniqueRule}
    {v : Value} {ex : Option Int}
    (h : ruleViolated tbl rule v ex = false) :
    ∀ row ∈ tbl, excluded ex row = false →
      pyEq (norm rule (rget row rule.field)) v = false := by
  intro row hmem hexcl
  rw [ruleViolated, List.any_eq_false] at h
  have := h row hmem
  simpa [hexcl] using this

theorem validateRules_none_of_mem {tbl : List Record}
    {rules : List UniqueRule} {o : Obj} {ex : Option Int}
    (h : validateRules tbl rules o ex = none) :
    ∀ rule ∈ rules,
      (isVNull (norm rule (oget o rule.field)) = true ∧
        rule.allow_none = true) ∨
      ruleViolated tbl rule (norm rule (oget o rule.field)) ex = false := by
  intro rule hmem
  induction rules with
  | nil => cases hmem
  | cons r rest ih =>
    rw [validateRules] at h
    rcases List.mem_cons.mp hmem with rfl | hmem'
    · by_cases hskip : (isVNull (norm rule (oget o rule.field)) &&
          rule.allow_none) = true
      · exact Or.inl (by simpa using hskip)
      · right
        simp only [hskip, Bool.false_eq_true, if_false] at h
        by_cases hviol : ruleViolated tbl rule
            (norm rule (oget o rule.field)) ex = true
        · rw [if_pos hviol] at h
          cases h
        · simpa using hviol
    · by_cases hskip : (isVNull (norm r (oget o r.field)) &&
          r.allow_none) = true
      · rw [if_pos hskip] at h
        exact ih h hmem'
      · simp only [hskip, Bool.false_eq_true, if_false] at h
        by_cases hviol : ruleViolated tbl r (norm r (oget o r.field)) ex = true
        · rw [if_pos hviol] at h
          cases h
        · rw [if_neg hviol] at h
          exact ih h hmem'

theorem validate_none_rules {tbl : List Record} {spec : RepoSpec} {o : Obj}
    {ex : Option Int} (h : validate tbl spec o ex = none) :
    validateRules tbl spec.unique o ex = none := by
  rw [validate] at h
  cases hr : validateRules tbl spec.unique o ex with
  | none => rfl
  | some e => rw [hr] at h; cases h

/-- C1: every store write serializes to a temporary sibling file, flushes to
stable storage, and atomically renames over the target path; at no
intermediate observable state does the real backing path hold a partial
file — it holds the old contents up to the rename and the complete new
contents after it. -/
theorem atomic_write_old_or_new (old : Option String) (content : String) :
    (∀ st ∈ writeStates old content,
      st.real = old ∨ st.real = some content) ∧
    (∀ st ∈ (writeStates old content).dropLast, st.real = old) ∧
    (writeStates old content).getLast? = some ⟨some content, none⟩ := by
  refine ⟨?_, ?_, ?_⟩
  · intro st hmem
    simp only [writeStates, List.mem_append, List.mem_map, List.mem_cons,
      List.mem_singleton] at hmem
    rcases hmem with ⟨k, _, rfl⟩ | rfl | rfl | h
    · exact Or.inl rfl
    · exact Or.inl rfl
    · exact Or.inr rfl
    · cases h
  · intro st hmem
    have hsplit : writeStates old content =
        (((List.range (content.length + 1)).map (fun k =>
          FileState.mk old (some (String.mk (content.data.take k)))))
          ++ [FileState.mk old (some content)])
          ++ [FileState.mk (some content) none] := by
      simp [writeStates]
    rw [hsplit, List.dropLast_concat] at hmem
    simp only [List.mem_append, List.mem_map, List.mem_singleton] at hmem
    rcases hmem with ⟨k, _, rfl⟩ | rfl <;> rfl
  · have hsplit : writeStates old content =
        (((List.range (content.length + 1)).map (fun k =>
          FileState.mk old (some (String.mk (content.data.take k)))))
          ++ [FileState.mk old (some content)])
          ++ [FileState.mk (some content) none] := by
      simp [writeStates]
    rw [hsplit, List.getLast?_concat]

/-- Witness for C1 at a concrete old file and new contents. -/
theorem atomic_write_old_or_new_witness :
    ((⟨some "x", some "a"⟩ : FileState) ∈
        (writeStates (some "x") "ab").dropLast ∧
      (⟨some "x", some "a"⟩ : FileState).real = some "x") ∧
    (writeStates (some "x") "ab").getLast? = some ⟨some "ab", none⟩ :=
  ⟨⟨by decide, (atomic_write_old_or_new (some "x") "ab").2.1 _ (by decide)⟩,
    (atomic_write_old_or_new (some "x") "ab").2.2⟩

/-- C3: `create` fails `id_exists` whenever some stored document already
carries the object's id — regardless of the spec's rules or custom
validator, i.e. before any validation runs — and otherwise, when validation
passes, appends the dumped record and returns exactly the input object. -/
theorem create_id_exists_then_validate_insert (spec : RepoSpec) (o : Obj)
    (tbl : List Record) :
    (tbl.any (fun d => pyEq (rget d "id") (.VInt o.id)) = true →
      Repo.create spec o tbl = (.error "id_exists", tbl)) ∧
    (tbl.any (fun d => pyEq (rget d "id") (.VInt o.id)) = false →
      validate tbl spec o none = none →
      Repo.create spec o tbl = (.ok o, tbl ++ [dump o])) := by
  constructor
  · intro h
    simp [Repo.create, h]
  · intro h hv
    simp [Repo.create, h, hv]

/-- Witness for C3: an id collision fails even though validation would also
reject, and a fresh create inserts and echoes the object. -/
theorem create_id_exists_then_validate_insert_witness :
    ((Repo.create USER_SPEC alice [dump alice]).1 = .error "id_exists") ∧
    (Repo.create USER_SPEC alice [] = (.ok alice, [dump alice])) :=
  ⟨by rw [(create_id_exists_then_validate_insert USER_SPEC alice
      [dump alice]).1 (by decide)],
    (create_id_exists_then_validate_insert USER_SPEC alice []).2
      (by decide) (by decide)⟩

theorem checkProductIds_error {products : List Record} {ids : List Int}
    (h : ∃ pid ∈ ids, Repo.existsBy "id" (.VInt pid) false products = false) :
    checkProductIds products ids = .error "missing_product" := by
  induction ids with
  | nil => obtain ⟨pid, hmem, _⟩ := h; cases hmem
  | cons p rest ih =>
    obtain ⟨pid, hmem, hmiss⟩ := h
    rcases List.mem_cons.mp hmem with rfl | hmem'
    · simp [checkProductIds, hmiss]
    · by_cases hp : Repo.existsBy "id" (.VInt p) false products = true
      · simp [checkProductIds, hp, ih ⟨pid, hmem', hmiss⟩]
      · simp only [Bool.not_eq_true] at hp
        simp [checkProductIds, hp]

theorem checkProductIds_ok {products : List Record} {ids : List Int}
    (h : ∀ pid ∈ ids, Repo.existsBy "id" (.VInt pid) false products = true) :
    checkProductIds products ids = .ok () := by
  induction ids with
  | nil => rfl
  | cons p rest ih =>
    have hp := h p (List.mem_cons_self p rest)
    simp [checkProductIds, hp,
      ih (fun q hq => h q (List.mem_cons_of_mem p hq))]

/-- C5: `create_system` checks each referenced product id in list order; if
any referenced id has no existing product record, it fails
`missing_product` and the systems collection is unchanged; when every id
exists, the check imposes nothing and the outcome is the plain `create`. -/
theorem create_system_missing_product (products systems : List Record)
    (s : SystemObj) :
    ((∃ pid ∈ s.product_ids,
        Repo.existsBy "id" (.VInt pid) false products = false) →
      DataAPI.createSystem products systems s =
        (.error "missing_product", systems)) ∧
    ((∀ pid ∈ s.product_ids,
        Repo.existsBy "id" (.VInt pid) false products = true) →
      (DataAPI.createSystem products systems s).2 =
        (Repo.create SYSTEM_SPEC (systemObj s) systems).2) := by
  constructor
  · intro h
    simp [DataAPI.createSystem, checkProductIds_error h]
  · intro h
    simp only [DataAPI.createSystem, checkProductIds_ok h]
    cases hc : Repo.create SYSTEM_SPEC (systemObj s) systems with
    | mk res systems' => cases res <;> simp

/-- Witness for C5: the spec's scenario — `System(id=1, name="S1",
product_ids=[1,2])` with only product id 1 present fails `missing_product`
and persists nothing. -/
theorem create_system_missing_product_witness :
    (∃ pid ∈ (⟨1, "S1", [1, 2]⟩ : SystemObj).product_ids,
      Repo.existsBy "id" (.VInt pid) false [prodABC] = false) ∧
    DataAPI.createSystem [prodABC] [] ⟨1, "S1", [1, 2]⟩ =
      (.error "missing_product", []) :=
  ⟨⟨2, by decide, by decide⟩,
    (create_system_missing_product [prodABC] [] ⟨1, "S1", [1, 2]⟩).1
      ⟨2, by decide, by decide⟩⟩

/-- C7: `delete` fails `not_found` exactly when no stored document carries
the id, and otherwise succeeds returning the deleted id, after which `get`
on that id fails `not_found`. -/
theorem delete_then_get_not_found (i : Int) (tbl : List Record) :
    ((∀ r ∈ tbl, idMatches i r = false) →
      Repo.delete i tbl = (.error "not_found", tbl)) ∧
    (tbl.any (idMatches i) = true →
      (Repo.delete i tbl).1 = .ok i ∧
      Repo.get i (Repo.delete i tbl).2 = .error "not_found") := by
  constructor
  · intro h
    have hfil : tbl.filter (idMatches i) = [] :=
      List.filter_eq_nil_iff.mpr (fun a ha => by simp [h a ha])
    have hkeep : tableRemove tbl (idMatches i) = tbl :=
      List.filter_eq_self.mpr (fun a ha => by simp [h a ha])
    simp [Repo.delete, hfil, hkeep]
  · intro h
    obtain ⟨r, hmem, hr⟩ := List.any_eq_true.mp h
    have hne : tbl.filter (idMatches i) ≠ [] := by
      intro hnil
      exact absurd hr (by simpa using List.filter_eq_nil_iff.mp hnil r hmem)
    have hemp : (tbl.filter (idMatches i)).isEmpty = false := by
      cases hfil : tbl.filter (idMatches i) with
      | nil => exact absurd hfil hne
      | cons a as => rfl
    constructor
    · simp [Repo.delete, hemp]
    · have hfind : (tableRemove tbl (idMatches i)).find? (idMatches i) =
          none := by
        refine List.find?_eq_none.mpr (fun x hx => ?_)
        have := (List.mem_filter.mp hx).2
        simp only [Bool.not_eq_true] at this ⊢
        simpa using this
      simp [Repo.delete, hemp, Repo.get, hfind]

/-- Witness for C7: the spec's scenario — delete id 1 from a one-record
collection, then get id 1 fails `not_found`. -/
theorem delete_then_get_not_found_witness :
    ([dump alice].any (idMatches 1) = true ∧
      (Repo.delete 1 [dump alice]).1 = .ok 1 ∧
      Repo.get 1 (Repo.delete 1 [dump alice]).2 = .error "not_found") ∧
    Repo.delete 1 [] = (.error "not_found", []) :=
  ⟨⟨by decide, (delete_then_get_not_found 1 [dump alice]).2 (by decide)⟩,
    (delete_then_get_not_found 1 []).1 (fun r hr => by cases hr)⟩

/-- C9: a failing `create`, `update`, `upsert`, or `delete` returns the
collection exactly as it was: every error is raised before any insert,
update, or removal has changed the table. -/
theorem failed_write_leaves_collection_unchanged (spec : RepoSpec) (o : Obj)
    (i : Int) (tbl : List Record) (e : String) :
    ((Repo.create spec o tbl).1 = .error e →
      (Repo.create spec o tbl).2 = tbl) ∧
    ((Repo.update spec o tbl).1 = .error e →
      (Repo.update spec o tbl).2 = tbl) ∧
    ((Repo.upsert spec o tbl).1 = .error e →
      (Repo.upsert spec o tbl).2 = tbl) ∧
    ((Repo.delete i tbl).1 = .error e → (Repo.delete i tbl).2 = tbl) := by
  refine ⟨?_, ?_, ?_, ?_⟩
  · intro h
    by_cases hid : tbl.any (fun d => pyEq (rget d "id") (.VInt o.id)) = true
    · simp [Repo.create, hid]
    · simp only [Bool.not_eq_true] at hid
      cases hv : validate tbl spec o none with
      | some e' => simp [Repo.create, hid, hv]
      | none => simp [Repo.create, hid, hv] at h
  · intro h
    by_cases hex : tbl.any (idMatches o.id) = true
    · cases hv : validate tbl spec o (some o.id) with
      | some e' => simp [Repo.update, hex, hv]
      | none => simp [Repo.update, hex, hv] at h
    · simp only [Bool.not_eq_true] at hex
      simp [Repo.update, hex]
  · intro h
    cases hv : validate tbl spec o (some o.id) with
    | some e' => simp [Repo.upsert, hv]
    | none => simp [Repo.upsert, hv] at h
  · intro h
    cases hemp : (tbl.filter (idMatches i)).isEmpty with
    | true =>
      have hnil : tbl.filter (idMatches i) = [] := List.isEmpty_iff.mp hemp
      have := List.filter_eq_nil_iff.mp hnil
      have hkeep : tableRemove tbl (idMatches i) = tbl :=
        List.filter_eq_self.mpr (fun a ha => by simp [this a ha])
      simp [Repo.delete, hemp, hkeep]
    | false => simp [Repo.delete, hemp] at h

/-- Witness for C9: a colliding create and a delete of an absent id both
leave a concrete collection untouched. -/
theorem failed_write_leaves_collection_unchanged_witness :
    ((Repo.create USER_SPEC alice [dump alice]).1 = .error "id_exists" ∧
      (Repo.create USER_SPEC alice [dump alice]).2 = [dump alice]) ∧
    ((Repo.delete 9 [dump alice]).1 = .error "not_found" ∧
      (Repo.delete 9 [dump alice]).2 = [dump alice]) :=
  ⟨⟨rfl,
      (failed_write_leaves_collection_unchanged USER_SPEC alice 9
        [dump alice] "id_exists").1 rfl⟩,
    ⟨rfl,
      (failed_write_leaves_collection_unchanged USER_SPEC alice 9
        [dump alice] "not_found").2.2.2 rfl⟩⟩

theorem getBy_exact_eq (f : String) (v : Value) (tbl : List Record) :
    Repo.getBy f v false tbl =
      match tbl.find? (fieldMatches f v) with
      | none => .error "not_found"
      | some d => .ok d := by
  cases v <;> rfl

/-- C8: `get_by` returns the first stored record whose field matches the
requested value — compared case-folded when `case_insensitive` is set and
both sides are strings, so a query for a string matches a stored record
differing only in case — and fails `not_found` when no record matches. -/
theorem get_by_nocase_first_match (f s : String) (v : Value)
    (tbl : List Record) :
    ((∀ r ∈ tbl, nocaseMatches f s r = false) →
      Repo.getBy f (.VStr s) true tbl = .error "not_found") ∧
    (∀ pre r post, tbl = pre ++ r :: post →
      (∀ p ∈ pre, nocaseMatches f s p = false) →
      nocaseMatches f s r = true →
      Repo.getBy f (.VStr s) true tbl = .ok r) ∧
    (∀ r t, lookupField r f = some (.VStr t) →
      nocaseMatches f s r = (pyLower t == pyLower s)) ∧
    ((∀ r ∈ tbl, fieldMatches f v r = false) →
      Repo.getBy f v false tbl = .error "not_found") ∧
    (∀ pre r post, tbl = pre ++ r :: post →
      (∀ p ∈ pre, fieldMatches f v p = false) →
      fieldMatches f v r = true →
      Repo.getBy f v false tbl = .ok r) := by
  refine ⟨?_, ?_, ?_, ?_, ?_⟩
  · intro h
    have : tbl.find? (nocaseMatches f s) = none :=
      List.find?_eq_none.mpr (fun x hx => by simp [h x hx])
    simp [Repo.getBy, this]
  · intro pre r post htbl hpre hr
    subst htbl
    have h1 : pre.find? (nocaseMatches f s) = none :=
      List.find?_eq_none.mpr (fun x hx => by simp [hpre x hx])
    simp [Repo.getBy, List.find?_append, h1, List.find?_cons, hr]
  · intro r t h
    simp [nocaseMatches, h]
  · intro h
    have : tbl.find? (fieldMatches f v) = none :=
      List.find?_eq_none.mpr (fun x hx => by simp [h x hx])
    simp [getBy_exact_eq, this]
  · intro pre r post htbl hpre hr
    subst htbl
    have h1 : pre.find? (fieldMatches f v) = none :=
      List.find?_eq_none.mpr (fun x hx => by simp [hpre x hx])
    simp [getBy_exact_eq, List.find?_append, h1, List.find?_cons, hr]

/-- Witness for C8: the spec's scenario — `get_by("sku", "abc", nocase=true)`
matches the stored record with sku `"ABC"`, skipping a non-matching record
before it; and an unmatched query fails `not_found`. -/
theorem get_by_nocase_first_match_witness :
    (nocaseMatches "sku" "abc" prodABC = true ∧
      Repo.getBy "sku" (.VStr "abc") true [prodXYZ, prodABC] = .ok prodABC) ∧
    Repo.getBy "sku" (.VStr "zzz") true [prodXYZ, prodABC] =
      .error "not_found" :=
  ⟨⟨by decide,
      (get_by_nocase_first_match "sku" "abc" .VNull
          [prodXYZ, prodABC]).2.1 [prodXYZ] prodABC [] rfl
        (by decide) (by decide)⟩,
    (get_by_nocase_first_match "sku" "zzz" .VNull [prodXYZ, prodABC]).1
      (by decide)⟩

/-- C10: under a case-insensitive rule `_norm` turns any non-null value into
its lower-cased string form, so an integer and the string of its digits are
normalized equal and collide as a uniqueness violation, while under a
case-sensitive rule values are compared unconverted and the same pair does
not collide. -/
theorem norm_cross_type_uniqueness (an : Bool) (i : Int) (v : Value) :
    norm ⟨"sku", false, an⟩ v = v ∧
    pyEq (norm ⟨"sku", true, an⟩ (.VInt i))
      (norm ⟨"sku", true, an⟩ (.VStr (toString i))) = true ∧
    pyEq (.VInt i) (.VStr (toString i)) = false ∧
    validate [[("id", .VInt 7), ("sku", .VInt i)]]
      { table_name := "t", unique := [⟨"sku", true, an⟩] }
      ⟨8, [("sku", .VStr (toString i))]⟩ none =
      some "unique_violation:sku" ∧
    validate [[("id", .VInt 7), ("sku", .VInt i)]]
      { table_name := "t", unique := [⟨"sku", false, an⟩] }
      ⟨8, [("sku", .VStr (toString i))]⟩ none = none := by
  refine ⟨?_, ?_, ?_, ?_, ?_⟩
  · cases v <;> simp [norm]
  · simp [norm, pyStr, pyEq]
  · rfl
  · simp [validate, validateRules, ruleViolated, excluded, oget, dump, rget,
      lookupField, norm, isVNull, pyStr, pyEq]
  · simp [validate, validateRules, ruleViolated, excluded, oget, dump, rget,
      lookupField, norm, isVNull, pyStr, pyEq]

theorem validateRules_none_of_passes {tbl : List Record}
    {rs : List UniqueRule} {o : Obj} {ex : Option Int}
    (h : ∀ r ∈ rs, rulePasses tbl r o ex = true) :
    validateRules tbl rs o ex = none := by
  induction rs with
  | nil => rfl
  | cons r rest ih =>
    have ih' := ih (fun q hq => h q (List.mem_cons_of_mem r hq))
    have hr : (isVNull (norm r (oget o r.field)) = true ∧
        r.allow_none = true) ∨
        ruleViolated tbl r (norm r (oget o r.field)) ex = false := by
      simpa [rulePasses] using h r (List.mem_cons_self r rest)
    rw [validateRules]
    rcases hr with ⟨hnull, hallow⟩ | hnov
    · simp [hnull, hallow, ih']
    · by_cases hskip : (isVNull (norm r (oget o r.field)) &&
          r.allow_none) = true
      · simp [hskip, ih']
      · simp only [Bool.not_eq_true] at hskip
        simp [hskip, hnov, ih']

theorem validateRules_append_passes {tbl : List Record}
    {rs1 : List UniqueRule} (rs2 : List UniqueRule) {o : Obj}
    {ex : Option Int} (h : ∀ r ∈ rs1, rulePasses tbl r o ex = true) :
    validateRules tbl (rs1 ++ rs2) o ex = validateRules tbl rs2 o ex := by
  induction rs1 with
  | nil => rfl
  | cons r rest ih =>
    have ih' := ih (fun q hq => h q (List.mem_cons_of_mem r hq))
    have hr : (isVNull (norm r (oget o r.field)) = true ∧
        r.allow_none = true) ∨
        ruleViolated tbl r (norm r (oget o r.field)) ex = false := by
      simpa [rulePasses] using h r (List.mem_cons_self r rest)
    rw [List.cons_append, validateRules]
    rcases hr with ⟨hnull, hallow⟩ | hnov
    · simp [hnull, hallow, ih']
    · by_cases hskip : (isVNull (norm r (oget o r.field)) &&
          r.allow_none) = true
      · simp [hskip, ih']
      · simp only [Bool.not_eq_true] at hskip
        simp [hskip, hnov, ih']

/-- C4 counterexample: a configured custom validator returns the non-null
value `""`, but `validate` does not surface it — Python's `if err:` is a
truthiness test and treats the empty string as success. -/
theorem validator_empty_string_not_surfaced :
    emptyStrValidator [] alice none = some "" ∧
    validate [] emptyStrSpec alice none = none :=
  ⟨rfl, rfl⟩

/-- C4 (amended): unique rules are evaluated in declaration order and the
first violation is reported as `unique_violation:<field>`, regardless of
later rules or any custom validator; a rule whose normalized candidate value
is null is skipped entirely when it allows null; the custom validator runs
only after every unique rule passes, and its non-null, *non-empty* return
value is surfaced verbatim (a null or empty-string return counts as
success). -/
theorem validation_order_first_violation (tbl : List Record)
    (rs1 rs2 rs : List UniqueRule) (rule : UniqueRule) (o : Obj)
    (ex : Option Int)
    (fv : Option (List Record → Obj → Option Int → Option String))
    (g : List Record → Obj → Option Int → Option String) (e : String) :
    ((∀ r ∈ rs1, rulePasses tbl r o ex = true) →
      (isVNull (norm rule (oget o rule.field)) && rule.allow_none) = false →
      ruleViolated tbl rule (norm rule (oget o rule.field)) ex = true →
      validate tbl ⟨"t", rs1 ++ rule :: rs2, fv⟩ o ex =
        some ("unique_violation:" ++ rule.field)) ∧
    (isVNull (norm rule (oget o rule.field)) = true →
      rule.allow_none = true →
      validateRules tbl (rule :: rs2) o ex = validateRules tbl rs2 o ex) ∧
    ((∀ r ∈ rs, rulePasses tbl r o ex = true) →
      g tbl o ex = some e → e ≠ "" →
      validate tbl ⟨"t", rs, some g⟩ o ex = some e) ∧
    ((∀ r ∈ rs, rulePasses tbl r o ex = true) →
      (g tbl o ex = none ∨ g tbl o ex = some "") →
      validate tbl ⟨"t", rs, some g⟩ o ex = none) := by
  refine ⟨?_, ?_, ?_, ?_⟩
  · intro h1 hskip hviol
    rw [validate]
    simp only [validateRules_append_passes (rule :: rs2) h1]
    rw [validateRules]
    simp [hskip, hviol]
  · intro hnull hallow
    rw [validateRules]
    simp [hnull, hallow]
  · intro hpass hg hne
    rw [validate]
    simp [validateRules_none_of_passes hpass, hg, hne]
  · intro hpass hg
    rw [validate]
    rcases hg with hg | hg <;>
      simp [validateRules_none_of_passes hpass, hg]

/-- Witness for C4: a passing rule before a violated rule reports the
violated rule's field with the validator ignored; and a configured
validator's non-empty error is surfaced verbatim once all rules pass. -/
theorem validation_order_first_violation_witness :
    validate [dump alice]
      ⟨"t", [⟨"email", true, true⟩, ⟨"name", true, true⟩], some
        (fun _ _ _ => some "boom")⟩ bigAlice none =
      some "unique_violation:name" ∧
    validate [dump alice] ⟨"t", [], some (fun _ _ _ => some "boom")⟩
      bigAlice none = some "boom" :=
  ⟨(validation_order_first_violation [dump alice] [⟨"email", true, true⟩]
        [] [] ⟨"name", true, true⟩ bigAlice none
        (some (fun _ _ _ => some "boom")) (fun _ _ _ => some "boom")
        "boom").1
      (by decide) (by decide) (by decide),
    (validation_order_first_violation [dump alice] [] [] []
        ⟨"name", true, true⟩ bigAlice none none (fun _ _ _ => some "boom")
        "boom").2.2.1 (fun r hr => by cases hr) rfl (by decide)⟩

theorem map_eq_self_of {α : Type} {f : α → α} {l : List α}
    (h : ∀ x ∈ l, f x = x) : l.map f = l := by
  induction l with
  | nil => rfl
  | cons a rest ih =>
    rw [List.map_cons, h a (List.mem_cons_self a rest),
      ih (fun x hx => h x (List.mem_cons_of_mem a hx))]

theorem lookupField_isSome_of_mem {d : Record} {kv : String × Value}
    (h : kv ∈ d) : (lookupField d kv.1).isSome = true := by
  induction d with
  | nil => cases h
  | cons kv0 rest ih =>
    by_cases hk : kv0.1 = kv.1
    · cases kv0; simp_all [lookupField]
    · rcases List.mem_cons.mp h with rfl | h'
      · exact absurd rfl hk
      · cases kv0; simp_all [lookupField]

theorem lookupField_eq_of_nodup {d : Record} {kv : String × Value}
    (hnd : (d.map Prod.fst).Nodup) (h : kv ∈ d) :
    lookupField d kv.1 = some kv.2 := by
  induction d with
  | nil => cases h
  | cons kv0 rest ih =>
    rw [List.map_cons, List.nodup_cons] at hnd
    rcases List.mem_cons.mp h with rfl | h'
    · cases kv; simp [lookupField]
    · have hne : kv0.1 ≠ kv.1 := by
        intro he
        exact hnd.1 (he ▸ List.mem_map_of_mem Prod.fst h')
      cases kv0
      simp only [lookupField, if_neg hne]
      exact ih hnd.2 h'

theorem mergeRec_self {d : Record} (hnd : (d.map Prod.fst).Nodup) :
    mergeRec d d = d := by
  unfold mergeRec
  have h1 : d.map (fun kv =>
      match lookupField d kv.1 with
      | some v => (kv.1, v)
      | none => kv) = d :=
    map_eq_self_of (fun kv hkv => by
      cases kv; simp [lookupField_eq_of_nodup hnd hkv])
  have h2 : d.filter (fun kv => (lookupField d kv.1).isNone) = [] :=
    List.filter_eq_nil_iff.mpr (fun kv hkv => by
      simp [Option.isNone, lookupField_eq_of_nodup hnd hkv])
  rw [h1, h2, List.append_nil]

theorem mergeRec_idem {d : Record} (r : Record)
    (hnd : (d.map Prod.fst).Nodup) :
    mergeRec (mergeRec r d) d = mergeRec r d := by
  conv_lhs => rw [mergeRec]
  have h2 : d.filter (fun kv =>
      (lookupField (mergeRec r d) kv.1).isNone) = [] := by
    refine List.filter_eq_nil_iff.mpr (fun kv hkv => ?_)
    have hd : lookupField d kv.1 = some kv.2 :=
      lookupField_eq_of_nodup hnd hkv
    have := lookupField_mergeRec_of_some r hd
    simp [this]
  have h1 : (mergeRec r d).map (fun kv =>
      match lookupField d kv.1 with
      | some v => (kv.1, v)
      | none => kv) = mergeRec r d := by
    refine map_eq_self_of (fun kv hkv => ?_)
    rcases List.mem_append.mp hkv with hmap | hfil
    · obtain ⟨kv0, hkv0, hrepl⟩ := List.mem_map.mp hmap
      cases hd : lookupField d kv0.1 with
      | some v =>
        have : kv = (kv0.1, v) := by rw [← hrepl, hd]
        subst this
        simp [hd]
      | none =>
        have : kv = kv0 := by rw [← hrepl, hd]
        subst this
        simp [hd]
    · have hkv' := (List.mem_filter.mp hfil).1
      have hd : lookupField d kv.1 = some kv.2 :=
        lookupField_eq_of_nodup hnd hkv'
      cases kv
      simp [hd]
  rw [h1, h2, List.append_nil]

theorem idMatches_dump (o : Obj) : idMatches o.id (dump o) = true := by
  simp [idMatches, lookupField_dump_id, pyEq]

theorem idMatches_mergeRec (r : Record) (o : Obj) :
    idMatches o.id (mergeRec r (dump o)) = true := by
  simp [idMatches, lookupField_mergeRec_of_some r (lookupField_dump_id o),
    pyEq]

theorem tableUpsert_idem (tbl : List Record) (o : Obj)
    (hnd : ((dump o).map Prod.fst).Nodup) :
    tableUpsert (tableUpsert tbl (dump o) (idMatches o.id)) (dump o)
      (idMatches o.id) = tableUpsert tbl (dump o) (idMatches o.id) := by
  cases hany : tbl.any (idMatches o.id) with
  | true =>
    obtain ⟨r0, hr0, hpr0⟩ := List.any_eq_true.mp hany
    have hstep : tableUpsert tbl (dump o) (idMatches o.id) =
        tableUpdate tbl (dump o) (idMatches o.id) := by
      simp [tableUpsert, hany]
    have hany' : (tableUpdate tbl (dump o) (idMatches o.id)).any
        (idMatches o.id) = true := by
      refine List.any_eq_true.mpr
        ⟨mergeRec r0 (dump o), ?_, idMatches_mergeRec r0 o⟩
      have : mergeRec r0 (dump o) =
          (fun row => if idMatches o.id row then mergeRec row (dump o)
            else row) r0 := by simp [hpr0]
      rw [this]
      exact List.mem_map_of_mem _ hr0
    rw [hstep]
    simp only [tableUpsert, hany', if_pos]
    unfold tableUpdate
    rw [List.map_map]
    refine List.map_congr_left (fun row hrow => ?_)
    by_cases hp : idMatches o.id row = true
    · simp [Function.comp, hp, idMatches_mergeRec, mergeRec_idem _ hnd]
    · simp only [Bool.not_eq_true] at hp
      simp [Function.comp, hp]
  | false =>
    have hstep : tableUpsert tbl (dump o) (idMatches o.id) =
        tbl ++ [dump o] := by
      simp [tableUpsert, hany]
    have hany' : (tbl ++ [dump o]).any (idMatches o.id) = true := by
      simp [List.any_append, idMatches_dump]
    rw [hstep]
    simp only [tableUpsert, hany', if_pos]
    unfold tableUpdate
    rw [List.map_append]
    have h1 : tbl.map (fun row => if idMatches o.id row then
        mergeRec row (dump o) else row) = tbl :=
      map_eq_self_of (fun row hrow => by
        simp [List.any_eq_false.mp hany row hrow])
    have h2 : [dump o].map (fun row => if idMatches o.id row then
        mergeRec row (dump o) else row) = [dump o] := by
      simp [idMatches_dump, mergeRec_self hnd]
    rw [h1, h2]

theorem ruleViolated_filter (tbl : List Record) (rule : UniqueRule)
    (v : Value) (ex : Option Int) :
    ruleViolated tbl rule v ex =
      (tbl.filter (fun r => !excluded ex r)).any
        (fun row => pyEq (norm rule (rget row rule.field)) v) := by
  rw [ruleViolated, List.any_filter]

theorem validateRules_filter_congr {tbl tbl' : List Record}
    (rules : List UniqueRule) (o : Obj) (ex : Option Int)
    (h : tbl'.filter (fun r => !excluded ex r) =
      tbl.filter (fun r => !excluded ex r)) :
    validateRules tbl' rules o ex = validateRules tbl rules o ex := by
  induction rules with
  | nil => rfl
  | cons rule rest ih =>
    rw [validateRules, validateRules, ruleViolated_filter,
      ruleViolated_filter tbl, h, ih]

theorem nonexcluded_tableUpsert (tbl : List Record) (o : Obj) :
    (tableUpsert tbl (dump o) (idMatches o.id)).filter
      (fun r => !excluded (some o.id) r) =
    tbl.filter (fun r => !excluded (some o.id) r) := by
  have hpred : (fun r => !excluded (some o.id) r) =
      (fun r => !idMatches o.id r) := by
    funext r
    rw [excluded_some_eq_idMatches]
  rw [hpred]
  cases hany : tbl.any (idMatches o.id) with
  | true =>
    simp only [tableUpsert, hany, if_pos]
    unfold tableUpdate
    induction tbl with
    | nil => rfl
    | cons r rest ih =>
      rw [List.any_cons] at hany
      by_cases hp : idMatches o.id r = true
      · rw [List.map_cons, if_pos hp]
        rw [List.filter_cons, List.filter_cons]
        simp only [idMatches_mergeRec, hp, Bool.not_true, if_neg]
        cases hrest : rest.any (idMatches o.id) with
        | true => simpa using ih hrest
        | false =>
          have hid : rest.map (fun row => if idMatches o.id row then
              mergeRec row (dump o) else row) = rest :=
            map_eq_self_of (fun row hrow => by
              simp [List.any_eq_false.mp hrest row hrow])
          simp [hid]
      · simp only [Bool.not_eq_true] at hp
        rw [List.map_cons, hp, if_neg (by simp)]
        rw [List.filter_cons, List.filter_cons]
        simp only [hp, Bool.not_false, if_pos]
        rw [hp] at hany
        simp only [Bool.false_or] at hany
        cases hrest : rest.any (idMatches o.id) with
        | true => simpa using ih hrest
        | false => rw [hrest] at hany; cases hany
  | false =>
    simp only [tableUpsert, hany, if_neg, Bool.false_eq_true,
      not_false_iff]
    rw [List.filter_append]
    have : [dump o].filter (fun r => !idMatches o.id r) = [] := by
      simp [idMatches_dump]
    rw [this, List.append_nil]

/-- C6 counterexample: `upsert(x)` twice with identical content, under a
spec whose custom validator rejects non-empty collections — the first upsert
succeeds, the second fails, so the second upsert does not succeed for every
object and spec. -/
theorem upsert_twice_custom_validator_blocks :
    Repo.upsert nonemptySpec alice [] = (.ok alice, [dump alice]) ∧
    (Repo.upsert nonemptySpec alice [dump alice]).1 =
      .error "custom_blocked" :=
  ⟨rfl, rfl⟩

/-- C6 (amended): for a Spec without a custom validator (and entity dumps
with distinct field names, as the serializer produces), `upsert(x)` twice
with identical content behaves as once: whenever the first upsert succeeds,
the second succeeds as well — its own id being excluded from the uniqueness
comparison — and leaves the collection exactly as the first left it. -/
theorem upsert_idempotent_no_validator (spec : RepoSpec) (o : Obj)
    (tbl tbl' : List Record) (hval : spec.validator = none)
    (hnd : ((dump o).map Prod.fst).Nodup)
    (h1 : Repo.upsert spec o tbl = (.ok o, tbl')) :
    Repo.upsert spec o tbl' = (.ok o, tbl') := by
  cases hv : validate tbl spec o (some o.id) with
  | some e => rw [Repo.upsert, hv] at h1; simp at h1
  | none =>
    rw [Repo.upsert, hv] at h1
    have htbl' : tableUpsert tbl (dump o) (idMatches o.id) = tbl' :=
      congrArg Prod.snd h1
    have hrules : validateRules tbl spec.unique o (some o.id) = none :=
      validate_none_rules hv
    have hfilter : tbl'.filter (fun r => !excluded (some o.id) r) =
        tbl.filter (fun r => !excluded (some o.id) r) := by
      rw [← htbl']
      exact nonexcluded_tableUpsert tbl o
    have hrules' : validateRules tbl' spec.unique o (some o.id) = none := by
      rw [validateRules_filter_congr spec.unique o (some o.id) hfilter]
      exact hrules
    have hv2 : validate tbl' spec o (some o.id) = none := by
      rw [validate, hrules', hval]
    rw [Repo.upsert, hv2, ← htbl', tableUpsert_idem tbl o hnd]

/-- Witness for C6: upserting `alice` twice into an initially empty users
collection leaves the one-record collection unchanged. -/
theorem upsert_idempotent_no_validator_witness :
    (USER_SPEC.validator = none ∧
      ((dump alice).map Prod.fst).Nodup ∧
      Repo.upsert USER_SPEC alice [] = (.ok alice, [dump alice])) ∧
    Repo.upsert USER_SPEC alice [dump alice] = (.ok alice, [dump alice]) :=
  ⟨⟨rfl, by decide, rfl⟩,
    upsert_idempotent_no_validator USER_SPEC alice [] [dump alice] rfl
      (by decide) rfl⟩

theorem isVNull_iff (v : Value) : isVNull v = true ↔ v = .VNull := by
  cases v <;> simp [isVNull]

theorem normField_def (rule : UniqueRule) (row : Record) :
    normField rule row = norm rule (rget row rule.field) := rfl

theorem normField_dump (rule : UniqueRule) (o : Obj) :
    normField rule (dump o) = norm rule (oget o rule.field) := rfl

theorem rget_of_idMatches {i : Int} {row : Record}
    (h : idMatches i row = true) : rget row "id" = .VInt i := by
  cases hl : lookupField row "id" with
  | none => rw [idMatches, hl] at h; cases h
  | some v =>
    rw [idMatches, hl] at h
    rw [rget, hl, Option.getD_some]
    exact (pyEq_VInt_iff v i).mp h

theorem inv_preserved_append {rule : UniqueRule} {tbl : List Record}
    {o : Obj} {ex : Option Int}
    (hok : (isVNull (norm rule (oget o rule.field)) = true ∧
        rule.allow_none = true) ∨
      ruleViolated tbl rule (norm rule (oget o rule.field)) ex = false)
    (hnonexcl : ∀ r ∈ tbl, excluded ex r = false)
    (hInv : UniqueInv rule tbl) :
    UniqueInv rule (tbl ++ [dump o]) := by
  intro r1 h1 r2 h2 hid hnorm
  rw [List.mem_append, List.mem_singleton] at h1 h2
  rcases h1 with h1 | rfl
  · rcases h2 with h2 | rfl
    · exact hInv r1 h1 r2 h2 hid hnorm
    · rcases hok with ⟨hnull, hallow⟩ | hviol
      · have hval : norm rule (oget o rule.field) = .VNull :=
          (isVNull_iff _).mp hnull
        have h1null : normField rule r1 = .VNull := by
          refine (pyEq_VNull_iff _).mp ?_
          rw [← hval, ← normField_dump]
          exact hnorm
        exact ⟨by rw [h1null]; rfl, hallow⟩
      · have hfalse := ruleViolated_false_on hviol r1 h1 (hnonexcl r1 h1)
        rw [← normField_def, ← normField_dump] at hfalse
        rw [hnorm] at hfalse
        cases hfalse
  · rcases h2 with h2 | rfl
    · rcases hok with ⟨hnull, hallow⟩ | hviol
      · exact ⟨hnull, hallow⟩
      · have hfalse := ruleViolated_false_on hviol r2 h2 (hnonexcl r2 h2)
        rw [← normField_def, ← normField_dump] at hfalse
        rw [pyEq_symm] at hfalse
        rw [hnorm] at hfalse
        cases hfalse
    · rw [pyEq_refl] at hid
      cases hid

theorem tableUpdate_mem_cases {tbl : List Record} {o : Obj} {x : Record}
    (hx : x ∈ tableUpdate tbl (dump o) (idMatches o.id)) :
    (∃ r ∈ tbl, idMatches o.id r = true ∧ x = mergeRec r (dump o)) ∨
    (x ∈ tbl ∧ idMatches o.id x = false) := by
  obtain ⟨r, hr, hfx⟩ := List.mem_map.mp hx
  by_cases hp : idMatches o.id r = true
  · exact Or.inl ⟨r, hr, hp, by rw [← hfx, if_pos hp]⟩
  · have hxeq : x = r := by rw [← hfx, if_neg hp]
    simp only [Bool.not_eq_true] at hp
    exact Or.inr ⟨hxeq ▸ hr, hxeq ▸ hp⟩

theorem rget_merged_id (r : Record) (o : Obj) :
    rget (mergeRec r (dump o)) "id" = .VInt o.id := by
  rw [rget, lookupField_mergeRec_of_some r (lookupField_dump_id o),
    Option.getD_some]

theorem inv_preserved_update {rule : UniqueRule} {tbl : List Record}
    {o : Obj}
    (hok : (isVNull (norm rule (oget o rule.field)) = true ∧
        rule.allow_none = true) ∨
      ruleViolated tbl rule (norm rule (oget o rule.field)) (some o.id) =
        false)
    (hInv : UniqueInv rule tbl) :
    UniqueInv rule (tableUpdate tbl (dump o) (idMatches o.id)) := by
  intro x1 hx1 x2 hx2 hid hnorm
  rcases tableUpdate_mem_cases hx1 with ⟨r1, hr1, hp1, hx1eq⟩ |
    ⟨hmem1, hp1⟩
  · rcases tableUpdate_mem_cases hx2 with ⟨r2, hr2, hp2, hx2eq⟩ |
      ⟨hmem2, hp2⟩
    · -- both rows were matched and updated: their ids both equal o.id
      rw [hx1eq, hx2eq, rget_merged_id, rget_merged_id, pyEq_refl] at hid
      cases hid
    · -- x1 updated, x2 untouched and not excluded
      cases hfld : lookupField (dump o) rule.field with
      | some w =>
        have hval : norm rule (oget o rule.field) = norm rule w := by
          rw [oget, rget, hfld, Option.getD_some]
        have hnf1 : normField rule x1 = norm rule w := by
          rw [hx1eq, normField_def, rget,
            lookupField_mergeRec_of_some r1 hfld, Option.getD_some]
        rcases hok with ⟨hnull, hallow⟩ | hviol
        · have h1null : normField rule x1 = .VNull := by
            rw [hnf1, ← hval]
            exact (isVNull_iff _).mp hnull
          exact ⟨by rw [h1null]; rfl, hallow⟩
        · have hfalse := ruleViolated_false_on hviol x2 hmem2
            (by rw [excluded_some_eq_idMatches]; exact hp2)
          rw [← normField_def, hval, ← hnf1] at hfalse
          rw [pyEq_symm] at hfalse
          rw [hnorm] at hfalse
          cases hfalse
      | none =>
        -- the dump lacks the rule's field: the updated row keeps its old
        -- field value, and its id was already o.id
        have hnf1 : normField rule x1 = normField rule r1 := by
          rw [hx1eq, normField_def, normField_def, rget, rget,
            lookupField_mergeRec_of_none r1 hfld]
        have hid1 : rget x1 "id" = rget r1 "id" := by
          rw [hx1eq, rget_merged_id, rget_of_idMatches hp1]
        rw [hid1] at hid
        rw [hnf1] at hnorm ⊢
        exact hInv r1 hr1 x2 hmem2 hid hnorm
  · rcases tableUpdate_mem_cases hx2 with ⟨r2, hr2, hp2, hx2eq⟩ |
      ⟨hmem2, hp2⟩
    · cases hfld : lookupField (dump o) rule.field with
      | some w =>
        have hval : norm rule (oget o rule.field) = norm rule w := by
          rw [oget, rget, hfld, Option.getD_some]
        have hnf2 : normField rule x2 = norm rule w := by
          rw [hx2eq, normField_def, rget,
            lookupField_mergeRec_of_some r2 hfld, Option.getD_some]
        rcases hok with ⟨hnull, hallow⟩ | hviol
        · have h1null : normField rule x1 = .VNull := by
            refine (pyEq_VNull_iff _).mp ?_
            have h2null : normField rule x2 = .VNull := by
              rw [hnf2, ← hval]
              exact (isVNull_iff _).mp hnull
            rw [← h2null]
            exact hnorm
          exact ⟨by rw [h1null]; rfl, hallow⟩
        · have hfalse := ruleViolated_false_on hviol x1 hmem1
            (by rw [excluded_some_eq_idMatches]; exact hp1)
          rw [← normField_def, hval, ← hnf2] at hfalse
          rw [hnorm] at hfalse
          cases hfalse
      | none =>
        have hnf2 : normField rule x2 = normField rule r2 := by
          rw [hx2eq, normField_def, normField_def, rget, rget,
            lookupField_mergeRec_of_none r2 hfld]
        have hid2 : rget x2 "id" = rget r2 "id" := by
          rw [hx2eq, rget_merged_id, rget_of_idMatches hp2]
        rw [hid2] at hid
        rw [hnf2] at hnorm
        exact hInv x1 hmem1 r2 hr2 hid hnorm
    · exact hInv x1 hmem1 x2 hmem2 hid hnorm

theorem inv_preserved_filter {rule : UniqueRule} {tbl : List Record}
    (p : Record → Bool) (hInv : UniqueInv rule tbl) :
    UniqueInv rule (tbl.filter p) := by
  intro r1 h1 r2 h2 hid hnorm
  exact hInv r1 (List.mem_filter.mp h1).1 r2 (List.mem_filter.mp h2).1
    hid hnorm

theorem applyOp_preserves {spec : RepoSpec} {rule : UniqueRule}
    (hmem : rule ∈ spec.unique) {tbl : List Record}
    (hInv : UniqueInv rule tbl) (op : Op) :
    UniqueInv rule (applyOp spec tbl op) := by
  cases op with
  | create o =>
    show UniqueInv rule (Repo.create spec o tbl).2
    by_cases hid : tbl.any (fun d => pyEq (rget d "id") (.VInt o.id)) = true
    · simpa [Repo.create, hid] using hInv
    · simp only [Bool.not_eq_true] at hid
      cases hval : validate tbl spec o none with
      | some e => simpa [Repo.create, hid, hval] using hInv
      | none =>
        have hok := validateRules_none_of_mem
          (validate_none_rules hval) rule hmem
        simp only [Repo.create, hid, hval, Bool.false_eq_true, if_false]
        exact inv_preserved_append hok (fun r _ => rfl) hInv
  | update o =>
    show UniqueInv rule (Repo.update spec o tbl).2
    by_cases hany : tbl.any (idMatches o.id) = true
    · cases hval : validate tbl spec o (some o.id) with
      | some e => simpa [Repo.update, hany, hval] using hInv
      | none =>
        have hok := validateRules_none_of_mem
          (validate_none_rules hval) rule hmem
        simp only [Repo.update, hany, Bool.not_true, Bool.false_eq_true,
          if_false, hval]
        exact inv_preserved_update hok hInv
    · simp only [Bool.not_eq_true] at hany
      simpa [Repo.update, hany] using hInv
  | upsert o =>
    show UniqueInv rule (Repo.upsert spec o tbl).2
    cases hval : validate tbl spec o (some o.id) with
    | some e => simpa [Repo.upsert, hval] using hInv
    | none =>
      have hok := validateRules_none_of_mem
        (validate_none_rules hval) rule hmem
      simp only [Repo.upsert, hval]
      by_cases hany : tbl.any (idMatches o.id) = true
      · simp only [tableUpsert, hany, if_pos]
        exact inv_preserved_update hok hInv
      · simp only [Bool.not_eq_true] at hany
        simp only [tableUpsert, hany, Bool.false_eq_true, if_false]
        refine inv_preserved_append hok (fun r hr => ?_) hInv
        rw [excluded_some_eq_idMatches]
        have := List.any_eq_false.mp hany r hr
        simpa using this
  | delete i =>
    show UniqueInv rule (Repo.delete i tbl).2
    have : (Repo.delete i tbl).2 = tableRemove tbl (idMatches i) := by
      rw [Repo.delete]
      by_cases hemp : (tbl.filter (idMatches i)).isEmpty = true <;>
        simp [hemp]
    rw [this]
    exact inv_preserved_filter _ hInv

/-- C2: for any collection spec, any uniqueness rule it declares, and any
finite sequence of repo write operations starting from the empty collection,
no two stored rows with distinct ids hold normalized-equal values for the
rule's field, except that both may be null when the rule allows null. -/
theorem unique_invariant_after_ops (spec : RepoSpec) (rule : UniqueRule)
    (hmem : rule ∈ spec.unique) (ops : List Op) :
    UniqueInv rule (runOps spec ops) := by
  have hgen : ∀ (l : List Op) (tbl : List Record), UniqueInv rule tbl →
      UniqueInv rule (l.foldl (applyOp spec) tbl) := by
    intro l
    induction l with
    | nil => intro tbl h; exact h
    | cons op rest ih =>
      intro tbl h
      exact ih _ (applyOp_preserves hmem h op)
  exact hgen ops [] (fun r hr => absurd hr (List.not_mem_nil r))

/-- Witness for C2: a concrete operation sequence on the users collection —
including rejected duplicate names, an upsert, an update, and a delete —
ends in a state satisfying the case-insensitive name uniqueness invariant. -/
theorem unique_invariant_after_ops_witness :
    (⟨"name", true, true⟩ : UniqueRule) ∈ USER_SPEC.unique ∧
    UniqueInv ⟨"name", true, true⟩ (runOps USER_SPEC
      [.create alice, .create bigAlice, .upsert bob,
        .update ⟨3, [("name", .VStr "Bobby")]⟩, .delete 1,
        .create ⟨4, [("name", .VStr "BOBBY")]⟩]) :=
  ⟨by decide,
    unique_invariant_after_ops USER_SPEC ⟨"name", true, true⟩ (by decide)
      [.create alice, .create bigAlice, .upsert bob,
        .update ⟨3, [("name", .VStr "Bobby")]⟩, .delete 1,
        .create ⟨4, [("name", .VStr "BOBBY")]⟩]⟩

end Dalapy
